import Mathlib

/-!
# TruncatedBetaBernoulliFactor

A shallow embedding of `src/truncated_beta_bernoulli_factor.hpp` and the
properties of its operations.

Conventions of the embedding.

* `double` values are elements of a field `K` and `std::log` is a function
  `log : K → K` handed to the definitions; the theorems take `K = ℝ` and
  `log = Real.log`.
* `int` values are integers. The one `int` addition the source performs, the
  row total of `log_densities_implementation`, is `int_add`: it wraps to 32 bits
  (signed overflow is undefined in the language and wraps on the usual targets).
* `std::vector` is `List`; `v[i]` outside the vector is undefined behaviour in
  the source and is `none` (for a value) or `Outcome.undefined` (for a call).
* `std::map<int, bool>` is the list of its entries in key order.
* The factor is a template over `counts_type`; the embedding is generic over a
  type `σ` with the three operations the template uses (`CountsType`).
* A pointer is `Option Nat` (the null pointer or an address); dereferencing the
  null pointer is undefined behaviour.
-/

namespace Graphmod

/-! ## Data model -/

/-- The value held by a `ContinuousMatrixVariable`: a vector of rows of doubles. -/
structure ContinuousMatrixVariable (K : Type) where
  value : List (List K)

/-- What the factor reads from a `CategoricalVariable`: its value (`-1` when
unassigned), its domain name and its domain size. -/
structure CategoricalVariable where
  value : Int
  domain_name : String
  domain_size : Nat

/-- What the factor reads from a `MappedCategoricalVariable`: its value (the
entries of a `std::map<int, bool>` in key order), its domain name and its
domain size. -/
structure MappedCategoricalVariable where
  value : List (Int × Bool)
  domain_name : String
  domain_size : Nat

/-- The operations the template uses on its `counts_type` parameter:
`add_target(names, sizes)`, `increment(names, coordinates, weight)` and the
two-name call operator `counts(a, b)` that returns a table of rows. -/
class CountsType (σ : Type) where
  add_target : σ → List String → List Nat → σ
  increment : σ → List String → List Int → Int → σ
  table : σ → String → String → List (List Int)

/-- Everything a member function of the factor can reach: the counts object it
is handed by reference and the three variables behind the pointers `_prior`,
`_index` and `_observation`. -/
structure State (σ K : Type) where
  counts : σ
  prior : ContinuousMatrixVariable K
  index : CategoricalVariable
  observation : MappedCategoricalVariable

/-- The `variable` argument of `log_densities_implementation`, up to pointer
identity: one of the three variables of the factor, or some other variable.
The three pointers have three different variable classes, so they are distinct. -/
inductive VariableRef where
  | prior
  | index
  | observation
  | other (id : Nat)
  deriving DecidableEq

/-- How a call ends: it returns a value in a final state, it throws an
exception (a `GraphmodException`, or a standard one) with a message in a final
state, or it runs into undefined behaviour (a vector subscript outside the
vector, a null pointer dereferenced). -/
inductive Outcome (S α : Type) where
  | returns (a : α) (s : S)
  | throws (msg : String) (s : S)
  | undefined

/-! ## The store, as the spec describes it -/

/-- Modelled from the spec: the CountsStore class (`counts_type` is a template
parameter and no store is part of the source file). A target is a tuple of
domain names with a shape; the count of a coordinate that was never
incremented is 0. -/
structure CountsStore where
  targets : List (List String × List Nat)
  count : List String → List Int → Int

/-- Modelled from the spec: registering a target is idempotent, re-declaring
with the same name tuple and shape is a no-op. -/
def CountsStore.add_target (s : CountsStore) (names : List String) (shape : List Nat) :
    CountsStore :=
  if (names, shape) ∈ s.targets then s
  else { s with targets := s.targets ++ [(names, shape)] }

/-- Modelled from the spec: `increment(target_name_tuple, coordinate_tuple,
weight)` adds `weight` to the count at that coordinate, auto-creating the
entry if absent. -/
def CountsStore.increment (s : CountsStore) (names : List String) (coords : List Int)
    (weight : Int) : CountsStore :=
  { s with count := fun n c =>
      if n = names ∧ c = coords then s.count n c + weight else s.count n c }

/-- Modelled from the spec: reading a target by name returns the full table, of
the registered shape (the empty table when no two-axis target of that name is
registered). -/
def CountsStore.table (s : CountsStore) (a b : String) : List (List Int) :=
  match s.targets.find? (fun t => decide (t.1 = [a, b])) with
  | some (_, [rows, cols]) =>
      (List.range rows).map fun (i : Nat) =>
        (List.range cols).map fun (j : Nat) => s.count [a, b] [(i : Int), (j : Int)]
  | _ => []

instance : CountsType CountsStore where
  add_target := CountsStore.add_target
  increment := CountsStore.increment
  table := CountsStore.table

/-- One call made on the counts object. -/
inductive StoreCall where
  | add_target (names : List String) (shape : List Nat)
  | increment (names : List String) (coords : List Int) (weight : Int)
  deriving DecidableEq

/-- A counts object that only records the calls made on it, in order. -/
structure CallLog where
  calls : List StoreCall
  deriving DecidableEq

instance : CountsType CallLog where
  add_target l names shape := ⟨l.calls ++ [StoreCall.add_target names shape]⟩
  increment l names coords weight := ⟨l.calls ++ [StoreCall.increment names coords weight]⟩
  table _ _ _ := []

/-! ## Machine integers -/

/-- The least value of a 32-bit `int`. -/
def INT_MIN : Int := -2147483648

/-- The greatest value of a 32-bit `int`. -/
def INT_MAX : Int := 2147483647

/-- The 32-bit two's complement value of an integer: the representative of `x`
modulo 2^32 in [-2^31, 2^31). -/
def wrap_int (x : Int) : Int := (x + 2147483648) % 4294967296 - 2147483648

/-- The sum `a + b` of two `int` values, wrapped to 32 bits. Signed overflow is
undefined in the language; the wrapped value is what two's complement targets
compute. -/
def int_add (a b : Int) : Int := wrap_int (a + b)

/-- Every partial sum of `row`, started from `acc`, is in the range of `int`:
the accumulation of the row does not overflow. -/
def sums_in_range (acc : Int) : List Int → Prop
  | [] => True
  | x :: xs => (INT_MIN ≤ acc + x ∧ acc + x ≤ INT_MAX) ∧ sums_in_range (acc + x) xs

instance sums_in_range_decidable (acc : Int) (row : List Int) :
    Decidable (sums_in_range acc row) :=
  match row with
  | [] => isTrue trivial
  | x :: xs =>
    have := sums_in_range_decidable (acc + x) xs
    inferInstanceAs
      (Decidable ((INT_MIN ≤ acc + x ∧ acc + x ≤ INT_MAX) ∧ sums_in_range (acc + x) xs))

/-! ## Vector helpers -/

/-- The subscript `v[i]` of a `std::vector` with an `int` index: undefined
(`none`) outside the vector, a negative index included. -/
def subscript {α : Type} (v : List α) (i : Int) : Option α :=
  if 0 ≤ i then v[i.toNat]? else none

/-- The call `v.resize(n)` of a `std::vector`: truncate, or pad with the
value-initialised element `d`. -/
def resize {α : Type} (v : List α) (n : Nat) (d : α) : List α :=
  v.take n ++ List.replicate (n - v.length) d

/-- The call `std::fill(v.begin(), v.end(), value)`. -/
def fill {α : Type} (v : List α) (value : α) : List α :=
  v.map fun _ => value

/-! ## The factor -/

/-- The quotient handed to `std::log` in `log_density_function`. -/
def density_ratio {K : Type} [Field K] (ind_obs_count index_total : Int) (alpha beta : K) : K :=
  ((ind_obs_count : K) + alpha) / ((index_total : K) + alpha + beta)

/-- The lambda of `log_density_function`: one step of the accumulation. -/
def log_density_step {K : Type} [Field K] (log : K → K) (priors : List (List K))
    (index_total : Int) (index_observation_counts : List Int)
    (current_log : K) (observation : Int × Bool) : Option K := do
  let obs_id := observation.1
  let ind_obs_count ← subscript index_observation_counts obs_id
  let priors0 ← subscript priors 0
  let alpha ← subscript priors0 obs_id
  let priors1 ← subscript priors 1
  let beta ← subscript priors1 obs_id
  pure (current_log + log (density_ratio ind_obs_count index_total alpha beta))

/-- The function `log_density_function`: `std::accumulate` over the entries of the
observation map, from `0.0`. -/
def log_density_function {K : Type} [Field K] (log : K → K) (priors : List (List K))
    (index_total : Int) (index_observation_counts : List Int)
    (observations : List (Int × Bool)) : Option K :=
  observations.foldlM (log_density_step log priors index_total index_observation_counts) 0

/-- The body of the `if` of `compile_implementation` after `value` is read:
`resize(2)` on the matrix, `resize(domain_size)` on rows 0 and 1, then
`std::fill` of rows 0 and 1 with `value`. -/
def resize_and_fill {K : Type} [Field K] (prior : List (List K)) (domain_size : Nat)
    (value : K) : List (List K) :=
  let prior := resize prior 2 []
  let prior := prior.set 0 (resize (prior.getD 0 []) domain_size 0)
  let prior := prior.set 1 (resize (prior.getD 1 []) domain_size 0)
  let prior := prior.set 0 (fill (prior.getD 0 []) value)
  let prior := prior.set 1 (fill (prior.getD 1 []) value)
  prior

/-- The function `compile_implementation`: when the observation domain size differs from
`_prior->get_value().size()`, read `value = prior[0][0]` and resize and refill
the prior; then register the joint and the marginal target. -/
def compile_implementation {σ K : Type} [CountsType σ] [Field K] (s : State σ K) :
    Outcome (State σ K) Unit :=
  let register (prior : List (List K)) : State σ K :=
    let counts := CountsType.add_target s.counts
      [s.index.domain_name, s.observation.domain_name]
      [s.index.domain_size, s.observation.domain_size]
    let counts := CountsType.add_target counts [s.index.domain_name] [s.index.domain_size]
    { s with counts := counts, prior := ⟨prior⟩ }
  if s.observation.domain_size ≠ s.prior.value.length then
    match subscript s.prior.value 0 >>= fun row => subscript row 0 with
    | none => Outcome.undefined
    | some value =>
        Outcome.returns ()
          (register (resize_and_fill s.prior.value s.observation.domain_size value))
  else
    Outcome.returns () (register s.prior.value)

/-- The function `log_densities_implementation`: for the index variable, one entry per row
of the joint table, the total of a row being `std::accumulate` over `int` from 0;
for any other variable, the exception. -/
def log_densities_implementation {σ K : Type} [CountsType σ] [Field K] (log : K → K)
    (s : State σ K) (var : VariableRef) : Outcome (State σ K) (List K) :=
  if var = VariableRef.index then
    let index_by_observation :=
      CountsType.table s.counts s.index.domain_name s.observation.domain_name
    let index_totals := index_by_observation.map fun row => row.foldl int_add 0
    let log_probs := (List.zip index_by_observation index_totals).mapM fun p =>
      log_density_function log s.prior.value p.2 p.1 s.observation.value
    match log_probs with
    | none => Outcome.undefined
    | some log_probs => Outcome.returns log_probs s
  else
    Outcome.throws "unimplemented: vector density for TruncatedBetaBernoulli over observation" s

/-- The function `adjust_counts_implementation`: when the index is assigned, one increment
of the marginal target and one increment of the joint target per entry of the
observation map. The function has no failing path; the result is the final state. -/
def adjust_counts_implementation {σ K : Type} [CountsType σ] (s : State σ K) (weight : Int) :
    State σ K :=
  let index_value := s.index.value
  if index_value ≠ -1 then
    let counts := CountsType.increment s.counts [s.index.domain_name] [index_value] weight
    let counts := s.observation.value.foldl
      (fun counts opair =>
        CountsType.increment counts [s.index.domain_name, s.observation.domain_name]
          [index_value, opair.1] weight)
      counts
    { s with counts := counts }
  else
    s

/-- Modelled from the spec: `LogProbabilityVector` (declared in
probability_vector.hpp, which is not part of the source file) wraps the vector
it is built from, ordered by index value; its `at(i)` is the entry `i`, and
there is no entry outside the vector (`none`), a negative `i` included. -/
def LogProbabilityVector.entry_at {K : Type} (v : List K) (i : Int) : Option K :=
  if 0 ≤ i then v[i.toNat]? else none

/-- The function `log_density_implementation`: the entry of
`log_densities_implementation(counts, _index)` at the value of the index. An
exception or undefined behaviour of the inner call is that of the whole call;
`at` outside the vector throws, as `at` of a `std::vector` does. -/
def log_density_implementation {σ K : Type} [CountsType σ] [Field K] (log : K → K)
    (s : State σ K) : Outcome (State σ K) K :=
  match log_densities_implementation log s VariableRef.index with
  | Outcome.returns log_probs s' =>
      match LogProbabilityVector.entry_at log_probs s'.index.value with
      | some x => Outcome.returns x s'
      | none => Outcome.throws "std::out_of_range" s'
  | Outcome.throws msg s' => Outcome.throws msg s'
  | Outcome.undefined => Outcome.undefined

/-- What a caller observes of a call: the value returned, the message of the
exception thrown, or nothing when the behaviour is undefined. -/
def Outcome.result {S α : Type} : Outcome S α → Option (Except String α)
  | Outcome.returns a _ => some (Except.ok a)
  | Outcome.throws msg _ => some (Except.error msg)
  | Outcome.undefined => none

/-! ## A sequence of `adjust_counts` calls -/

/-- The kinds of variable the factor points to. -/
inductive VariableKind where
  | continuous_matrix
  | categorical
  | mapped_categorical
  deriving DecidableEq

/-- A `std::map<VariableInterface*, VariableInterface*>`, by address: `none` for
a key that is absent, `some none` for a key mapped to the null pointer,
`some (some a)` for a key mapped to the variable at address `a`. -/
def Remap : Type := Nat → Option (Option Nat)

/-- The call `old_to_new[key]` of `std::map`: the mapped pointer; an absent key
is first inserted with a null pointer. -/
def Remap.subscript (old_to_new : Remap) (key : Nat) : Option Nat × Remap :=
  match old_to_new key with
  | some p => (p, old_to_new)
  | none => (none, fun k => if k = key then some none else old_to_new k)

/-- The cast `dynamic_cast<T*>(p)`: `p` when it points to a variable of class
`T`, the null pointer otherwise. Which variable is of which class is `is_a`; the
variable classes are declared outside the source file. -/
def dynamic_cast (is_a : Nat → VariableKind → Bool) (T : VariableKind) (p : Option Nat) :
    Option Nat :=
  match p with
  | some a => if is_a a T then some a else none
  | none => none

/-- The three pointers a `TruncatedBetaBernoulliFactor` holds. -/
structure TruncatedBetaBernoulliFactor where
  _prior : Nat
  _index : Nat
  _observation : Nat
  deriving DecidableEq

/-- The three-pointer constructor. Its body calls `prior->add_child(this)`,
`index->add_child(this)` and `observation->add_parent(this)`, so a null pointer
among the three is dereferenced (`none`, undefined behaviour). The
registrations themselves live in the variables and are not part of the result. -/
def TruncatedBetaBernoulliFactor.construct (prior index observation : Option Nat) :
    Option TruncatedBetaBernoulliFactor :=
  match prior, index, observation with
  | some p, some i, some o => some ⟨p, i, o⟩
  | _, _, _ => none

/-- The function `clone`: the three lookups in `old_to_new`, the three casts, and
the constructor. The final state is the map after the lookups. -/
def clone (is_a : Nat → VariableKind → Bool) (f : TruncatedBetaBernoulliFactor)
    (old_to_new : Remap) : Outcome Remap TruncatedBetaBernoulliFactor :=
  let (prior, old_to_new) := old_to_new.subscript f._prior
  let (index, old_to_new) := old_to_new.subscript f._index
  let (observation, old_to_new) := old_to_new.subscript f._observation
  match TruncatedBetaBernoulliFactor.construct
      (dynamic_cast is_a VariableKind.continuous_matrix prior)
      (dynamic_cast is_a VariableKind.categorical index)
      (dynamic_cast is_a VariableKind.mapped_categorical observation) with
  | some factor => Outcome.returns factor old_to_new
  | none => Outcome.undefined

/-- The literal returned by `type()`. -/
def type : String := "TruncatedBetaBernoulli"

/-! ## Concrete inputs -/

/-- A store with the joint target ("z", "w") of shape 1 × 2 and the marginal
target ("z"), holding the joint row [3, 7] and the marginal total 10. -/
def example_store : CountsStore where
  targets := [(["z", "w"], [1, 2]), (["z"], [1])]
  count := fun names coords =>
    if names = ["z", "w"] ∧ coords = [0, 0] then 3
    else if names = ["z", "w"] ∧ coords = [0, 1] then 7
    else if names = ["z"] ∧ coords = [0] then 10
    else 0

/-- A state over `example_store`: a flat 2 × 2 prior of ones, the index assigned
to 0 in a domain of size 1, and the observation {0: true} in a domain of size 2. -/
def example_state : State CountsStore ℝ where
  counts := example_store
  prior := ⟨[[1, 1], [1, 1]]⟩
  index := ⟨0, "z", 1⟩
  observation := ⟨[(0, true)], "w", 2⟩

/-- The state `example_state` with the observation {0: false}. -/
def example_state_false_flag : State CountsStore ℝ :=
  { example_state with observation := ⟨[(0, false)], "w", 2⟩ }

/-- The state `example_state` with the index unassigned (-1). -/
def example_state_unassigned : State CountsStore ℝ :=
  { example_state with index := ⟨-1, "z", 1⟩ }

/-- A state over a call log: a 2 × 1 prior of ones and an observation domain
of size 3, nothing recorded yet. -/
def example_state_log : State CallLog ℝ where
  counts := ⟨[]⟩
  prior := ⟨[[1], [1]]⟩
  index := ⟨0, "z", 1⟩
  observation := ⟨[(0, true)], "w", 3⟩

/-- The state `example_state` with a 2 × 1 prior of ones and an observation
domain of size 3. -/
def example_state_growth : State CountsStore ℝ :=
  { example_state with prior := ⟨[[1], [1]]⟩, observation := ⟨[(0, true)], "w", 3⟩ }

/-- The state `example_state` with a 2 × 3 prior of ones and an observation
domain of size 1. -/
def example_state_shrink : State CountsStore ℝ :=
  { example_state with prior := ⟨[[1, 1, 1], [1, 1, 1]]⟩, observation := ⟨[(0, true)], "w", 1⟩ }

/-- The state `example_state` with a 2 × 3 prior tuned per column and an
observation domain of size 3. -/
def example_state_tuned : State CountsStore ℝ :=
  { example_state with prior := ⟨[[1, 2, 3], [4, 5, 6]]⟩, observation := ⟨[(0, true)], "w", 3⟩ }

/-- A state before compile: an empty store, a 2 × 1 prior of ones, an index
domain of size 1 and the observation {1: true} in a domain of size 2. -/
def example_state_two_columns : State CountsStore ℝ where
  counts := ⟨[], fun _ _ => 0⟩
  prior := ⟨[[1], [1]]⟩
  index := ⟨0, "z", 1⟩
  observation := ⟨[(1, true)], "w", 2⟩

/-- The store `example_store` with every cell of the marginal target ("z") set
to 99 and the marginal target registered with another shape. -/
def example_store_other_marginal : CountsStore where
  targets := [(["z", "w"], [1, 2]), (["z"], [5])]
  count := fun names coords => if names = ["z"] then 99 else example_store.count names coords

/-- A store with the joint target ("z", "w") of shape 2 × 2, holding the joint
rows [3, 7] and [2, 0], and the marginal target ("z") of shape 2. -/
def example_store_two_rows : CountsStore where
  targets := [(["z", "w"], [2, 2]), (["z"], [2])]
  count := fun names coords =>
    if names = ["z", "w"] ∧ coords = [0, 0] then 3
    else if names = ["z", "w"] ∧ coords = [0, 1] then 7
    else if names = ["z", "w"] ∧ coords = [1, 0] then 2
    else 0

/-- A state over `example_store_two_rows`: a flat 2 × 2 prior of ones, the index
assigned to 1 in a domain of size 2, and the observation {0: true}. -/
def example_state_two_rows : State CountsStore ℝ where
  counts := example_store_two_rows
  prior := ⟨[[1, 1], [1, 1]]⟩
  index := ⟨1, "z", 2⟩
  observation := ⟨[(0, true)], "w", 2⟩

/-- A state whose joint table is the one row [2147483647, 1], of `int` values
whose sum is INT_MAX + 1: a flat 2 × 2 prior of ones, the index assigned to 0 in a
domain of size 1, and the observation {0: true}. -/
def example_state_overflow : State CountsStore ℝ where
  counts :=
    ⟨[(["z", "w"], [1, 2]), (["z"], [1])], fun names coords =>
      if names = ["z", "w"] ∧ coords = [0, 0] then 2147483647
      else if names = ["z", "w"] ∧ coords = [0, 1] then 1
      else 0⟩
  prior := ⟨[[1, 1], [1, 1]]⟩
  index := ⟨0, "z", 1⟩
  observation := ⟨[(0, true)], "w", 2⟩

/-- The state `example_state`, whose joint table has one row, with the index
assigned to 1 in a domain of size 2. -/
def example_state_short_table : State CountsStore ℝ :=
  { example_state with index := ⟨1, "z", 2⟩ }

/-! ## The formula of the spec, for stating the results -/

/-- The id `o` is a valid subscript of the count row and of both prior rows. -/
def InBounds {K : Type} (priors : List (List K)) (counts : List Int) (o : Int) : Prop :=
  0 ≤ o ∧ o.toNat < counts.length ∧ o.toNat < (priors.getD 0 []).length ∧
    o.toNat < (priors.getD 1 []).length

instance {K : Type} (priors : List (List K)) (counts : List Int) (o : Int) :
    Decidable (InBounds priors counts o) := by
  unfold InBounds; infer_instance

/-- The term `log((counts[o] + prior[0][o]) / (N + prior[0][o] + prior[1][o]))` for
the category id `o`. -/
def formula_term {K : Type} [Field K] (log : K → K) (priors : List (List K)) (N : Int)
    (counts : List Int) (o : Int) : K :=
  log (((counts.getD o.toNat 0 : Int) + (priors.getD 0 []).getD o.toNat 0) /
    ((N : K) + (priors.getD 0 []).getD o.toNat 0 + (priors.getD 1 []).getD o.toNat 0))

/-! ## Lemmas on the `int` accumulation -/

theorem wrap_int_of_in_range (x : Int) (h1 : INT_MIN ≤ x) (h2 : x ≤ INT_MAX) :
    wrap_int x = x := by
  unfold INT_MIN at h1
  unfold INT_MAX at h2
  unfold wrap_int
  omega

theorem foldl_int_add_of_in_range (row : List Int) (acc : Int) (h : sums_in_range acc row) :
    row.foldl int_add acc = acc + row.sum := by
  induction row generalizing acc with
  | nil => simp
  | cons x xs ih =>
    obtain ⟨⟨h1, h2⟩, h3⟩ := h
    rw [List.foldl_cons, int_add, wrap_int_of_in_range _ h1 h2, ih _ h3, List.sum_cons]
    ring

theorem accumulate_eq_sum (row : List Int) (h : sums_in_range 0 row) :
    row.foldl int_add 0 = row.sum := by
  rw [foldl_int_add_of_in_range row 0 h, zero_add]

theorem subscript_of_lt {α : Type} (v : List α) (i : Int) (d : α) (h0 : 0 ≤ i)
    (h : i.toNat < v.length) : subscript v i = some (v.getD i.toNat d) := by
  simp [subscript, h0, List.getD_eq_getElem?_getD, List.getElem?_eq_getElem h]

theorem subscript_zero {α : Type} (v : List α) : subscript v 0 = v[0]? := by
  simp [subscript]

theorem subscript_one {α : Type} (v : List α) : subscript v 1 = v[1]? := by
  simp [subscript]

theorem getElem?_of_lt_getD_length {α : Type} (m : List (List α)) (k n : Nat)
    (h : n < (m.getD k []).length) : m[k]? = some (m.getD k []) := by
  rw [List.getD_eq_getElem?_getD] at h ⊢
  cases hk : m[k]? with
  | none => simp [hk] at h
  | some r => simp

theorem log_density_step_of_inBounds {K : Type} [Field K] (log : K → K)
    (priors : List (List K)) (N : Int) (counts : List Int) (acc : K) (e : Int × Bool)
    (h : InBounds priors counts e.1) :
    log_density_step log priors N counts acc e =
      some (acc + formula_term log priors N counts e.1) := by
  obtain ⟨h0, hc, ha, hb⟩ := h
  have r0 := getElem?_of_lt_getD_length priors 0 _ ha
  have r1 := getElem?_of_lt_getD_length priors 1 _ hb
  have e1 := subscript_of_lt counts e.1 0 h0 hc
  have e2 := subscript_of_lt (priors.getD 0 []) e.1 (0 : K) h0 ha
  have e3 := subscript_of_lt (priors.getD 1 []) e.1 (0 : K) h0 hb
  simp only [log_density_step, subscript_zero, subscript_one, r0, r1, e1, e2, e3,
    Option.bind_eq_bind, Option.some_bind, formula_term, density_ratio]
  rfl

theorem foldlM_log_density_step {K : Type} [Field K] (log : K → K)
    (priors : List (List K)) (N : Int) (counts : List Int) (obs : List (Int × Bool))
    (h : ∀ e ∈ obs, InBounds priors counts e.1) (acc : K) :
    obs.foldlM (log_density_step log priors N counts) acc =
      some (acc + (obs.map fun e => formula_term log priors N counts e.1).sum) := by
  induction obs generalizing acc with
  | nil => simp
  | cons e es ih =>
    have he := log_density_step_of_inBounds log priors N counts acc e (h e (by simp))
    rw [List.foldlM_cons, he]
    show es.foldlM _ _ = _
    rw [ih (fun x hx => h x (by simp [hx]))]
    simp [add_assoc]


theorem mapM_option_eq_some {α β : Type} (f : α → Option β) (l : List α) (r : List β) :
    l.mapM f = some r ↔ List.Forall₂ (fun a b => f a = some b) l r := by
  induction l generalizing r with
  | nil =>
    rw [List.mapM_nil]
    show some [] = some r ↔ _
    cases r <;> simp
  | cons a l ih =>
    rw [List.mapM_cons]
    cases hfa : f a with
    | none =>
      show none = some r ↔ _
      cases r <;> simp [hfa]
    | some b =>
      cases hl : List.mapM f l with
      | none =>
        show none = some r ↔ _
        cases r with
        | nil => simp
        | cons c r =>
          have := (ih r).not.mp (by rw [hl]; exact fun h => Option.noConfusion h)
          simp [this]
      | some bs =>
        show some (b :: bs) = some r ↔ _
        cases r with
        | nil => simp
        | cons c r =>
          have := ih r
          rw [hl] at this
          simp only [List.forall₂_cons, Option.some.injEq, List.cons.injEq, ← this]
          rw [hfa, Option.some.injEq]

theorem zip_map_self {α β : Type} (g : α → β) (l : List α) :
    List.zip l (l.map g) = l.map fun x => (x, g x) := by
  induction l with
  | nil => rfl
  | cons a l ih => simp [ih]

theorem formula_term_example :
    formula_term Real.log [[1], [1]] 10 [3] 0 = Real.log (4 / 12) := by
  simp only [formula_term]
  norm_num

theorem log_four_twelfths_ne_zero : Real.log (4 / 12) ≠ 0 :=
  Real.log_ne_zero_of_pos_of_ne_one (by norm_num) (by norm_num)

/-! ## Lemmas on the increments of `adjust_counts_implementation` -/

theorem increment_targets (c : CountsStore) (names : List String) (coords : List Int)
    (w : Int) : (CountsType.increment c names coords w).targets = c.targets := rfl

theorem increment_count (c : CountsStore) (names : List String) (coords : List Int)
    (w : Int) (n : List String) (x : List Int) :
    (CountsType.increment c names coords w).count n x =
      if n = names ∧ x = coords then c.count n x + w else c.count n x := rfl

theorem foldl_increment_targets (names : List String) (v w : Int) (obs : List (Int × Bool))
    (c0 : CountsStore) :
    (obs.foldl (fun c e => CountsType.increment c names [v, e.1] w) c0).targets =
      c0.targets := by
  induction obs generalizing c0 with
  | nil => rfl
  | cons e es ih =>
    rw [List.foldl_cons, ih]
    rfl

theorem foldl_increment_count (names : List String) (v w : Int) (obs : List (Int × Bool))
    (c0 : CountsStore) (n : List String) (x : List Int) :
    (obs.foldl (fun c e => CountsType.increment c names [v, e.1] w) c0).count n x =
      c0.count n x +
        (if n = names then w * (obs.countP fun e => decide (x = [v, e.1]) : Nat) else 0) := by
  induction obs generalizing c0 with
  | nil => simp
  | cons e es ih =>
    rw [List.foldl_cons, ih, List.countP_cons]
    show (CountsStore.increment c0 names [v, e.1] w).count n x + _ = _
    simp only [CountsStore.increment]
    by_cases hn : n = names
    · by_cases hx : x = [v, e.1]
      · simp [hn, hx]
        ring
      · simp [hn, hx]
    · simp [hn]

theorem countP_keys_of_nodup (v : Int) (obs : List (Int × Bool)) (x : List Int)
    (h : (obs.map Prod.fst).Nodup) :
    (obs.countP fun e => decide (x = [v, e.1])) =
      if x ∈ obs.map (fun e => [v, e.1]) then 1 else 0 := by
  induction obs with
  | nil => simp
  | cons e es ih =>
    rw [List.map_cons, List.nodup_cons] at h
    rw [List.countP_cons, ih h.2]
    by_cases hx : x = [v, e.1]
    · have hnot : x ∉ es.map (fun e => [v, e.1]) := by
        intro hmem
        rw [List.mem_map] at hmem
        obtain ⟨e', he', hxe⟩ := hmem
        rw [hx] at hxe
        have : e'.1 = e.1 := by simpa using hxe
        exact h.1 (this ▸ List.mem_map_of_mem Prod.fst he')
      simp [hx, hnot]
      simpa [hx] using hnot
    · have hiff : x ∈ ([v, e.1] :: es.map fun e => [v, e.1]) ↔
          x ∈ es.map (fun e => [v, e.1]) := by
        rw [List.mem_cons]
        exact or_iff_right hx
      simp only [hx, decide_False, Bool.false_eq_true, if_false, add_zero, List.map_cons]
      exact (if_congr hiff rfl rfl).symm

theorem CountsStore.eq_of_cells (a b : CountsStore) (ht : a.targets = b.targets)
    (hc : ∀ n x, a.count n x = b.count n x) : a = b := by
  cases a
  cases b
  simp only [CountsStore.mk.injEq]
  exact ⟨ht, funext fun n => funext fun x => hc n x⟩

/-! ## Lemmas on the marginal count and the joint row sum -/

theorem adjust_counts_targets {K : Type} (s : State CountsStore K) (w : Int) :
    (adjust_counts_implementation s w).counts.targets = s.counts.targets := by
  by_cases hv : s.index.value = -1
  · simp [adjust_counts_implementation, hv]
  · simp only [adjust_counts_implementation, hv, ne_eq, not_false_eq_true, if_true,
      foldl_increment_targets, increment_targets]

theorem adjust_counts_variables {σ K : Type} [CountsType σ] (s : State σ K) (w : Int) :
    (adjust_counts_implementation s w).prior = s.prior ∧
      (adjust_counts_implementation s w).index = s.index ∧
      (adjust_counts_implementation s w).observation = s.observation := by
  by_cases hv : s.index.value = -1
  · simp [adjust_counts_implementation, hv]
  · simp [adjust_counts_implementation, hv]

theorem adjust_counts_cells {K : Type} (s : State CountsStore K) (weight : Int)
    (hv : s.index.value ≠ -1) (hnd : (s.observation.value.map Prod.fst).Nodup)
    (names : List String) (coords : List Int) :
    (adjust_counts_implementation s weight).counts.count names coords =
      s.counts.count names coords +
        (if names = [s.index.domain_name] ∧ coords = [s.index.value] then weight else 0) +
        (if names = [s.index.domain_name, s.observation.domain_name] ∧
            coords ∈ s.observation.value.map (fun e => [s.index.value, e.1])
          then weight else 0) := by
  simp only [adjust_counts_implementation, hv, ne_eq, not_false_eq_true, if_true,
    foldl_increment_count, increment_count, countP_keys_of_nodup _ _ _ hnd]
  by_cases h1 : names = [s.index.domain_name] ∧ coords = [s.index.value]
  · have h2 : names ≠ [s.index.domain_name, s.observation.domain_name] := by
      rw [h1.1]; simp
    simp [h1, h2]
  · by_cases h2 : names = [s.index.domain_name, s.observation.domain_name]
    · by_cases h3 : coords ∈ s.observation.value.map (fun e => [s.index.value, e.1])
      · simp [h1, h2, h3]
      · simp [h1, h2, h3]
    · simp [h1, h2]

theorem foldl_increment_calls (names : List String) (v w : Int) (obs : List (Int × Bool))
    (c0 : CallLog) :
    (obs.foldl (fun c e => CountsType.increment c names [v, e.1] w) c0).calls =
      c0.calls ++ obs.map fun e => StoreCall.increment names [v, e.1] w := by
  induction obs generalizing c0 with
  | nil => simp
  | cons e es ih =>
    rw [List.foldl_cons, ih]
    show (c0.calls ++ [StoreCall.increment names [v, e.1] w]) ++ _ = _
    simp

/-! ## Lemmas on `log_densities_implementation` and `log_density_implementation` -/

theorem log_densities_returns_iff {σ K : Type} [CountsType σ] [Field K] (log : K → K)
    (s : State σ K) (vec : List K) :
    log_densities_implementation log s VariableRef.index = Outcome.returns vec s ↔
      List.Forall₂
        (fun row x =>
          log_density_function log s.prior.value (row.foldl int_add 0) row
            s.observation.value = some x)
        (CountsType.table s.counts s.index.domain_name s.observation.domain_name) vec := by
  simp only [log_densities_implementation, if_true, zip_map_self]
  have hM := mapM_option_eq_some
    (fun p : List Int × Int =>
      log_density_function log s.prior.value p.2 p.1 s.observation.value)
    ((CountsType.table s.counts s.index.domain_name s.observation.domain_name).map
      fun x => (x, x.foldl int_add 0)) vec
  rw [List.forall₂_map_left_iff] at hM
  rw [← hM]
  cases hL : List.mapM
    (fun p : List Int × Int =>
      log_density_function log s.prior.value p.2 p.1 s.observation.value)
    ((CountsType.table s.counts s.index.domain_name s.observation.domain_name).map
      fun x => (x, x.foldl int_add 0)) with
  | none => simp
  | some lp => simp

theorem log_densities_returns_or_undefined {σ K : Type} [CountsType σ] [Field K] (log : K → K)
    (s : State σ K) :
    (∃ vec, log_densities_implementation log s VariableRef.index = Outcome.returns vec s) ∨
      log_densities_implementation log s VariableRef.index = Outcome.undefined := by
  simp only [log_densities_implementation, if_true]
  split
  · exact Or.inr rfl
  · exact Or.inl ⟨_, rfl⟩

theorem log_densities_of_table_eq {σ τ K : Type} [CountsType σ] [CountsType τ] [Field K]
    (log : K → K) (s : State σ K) (c : τ)
    (h : CountsType.table c s.index.domain_name s.observation.domain_name =
      CountsType.table s.counts s.index.domain_name s.observation.domain_name) :
    (log_densities_implementation log ({ s with counts := c } : State τ K)
        VariableRef.index).result =
      (log_densities_implementation log s VariableRef.index).result := by
  simp only [log_densities_implementation, if_true, h]
  split <;> rfl

theorem example_state_log_densities :
    log_densities_implementation Real.log example_state VariableRef.index =
      Outcome.returns [Real.log (4 / 12)] example_state := by
  rw [log_densities_returns_iff]
  have ht : CountsType.table example_state.counts example_state.index.domain_name
      example_state.observation.domain_name = [[3, 7]] := by decide
  rw [ht]
  refine List.Forall₂.cons ?_ List.Forall₂.nil
  have h := foldlM_log_density_step Real.log [[1, 1], [1, 1]] 10 [3, 7] [(0, true)]
    (by decide) 0
  have e : formula_term Real.log [[1, 1], [1, 1]] 10 [3, 7] 0 = Real.log (4 / 12) := by
    simp only [formula_term]
    norm_num
  simpa [example_state, e, log_density_function] using h


theorem example_state_two_rows_log_densities :
    log_densities_implementation Real.log example_state_two_rows VariableRef.index =
      Outcome.returns [Real.log (4 / 12), Real.log (3 / 4)] example_state_two_rows := by
  rw [log_densities_returns_iff]
  have ht : CountsType.table example_state_two_rows.counts
      example_state_two_rows.index.domain_name
      example_state_two_rows.observation.domain_name = [[3, 7], [2, 0]] := by decide
  rw [ht]
  refine List.Forall₂.cons ?_ (List.Forall₂.cons ?_ List.Forall₂.nil)
  · have h := foldlM_log_density_step Real.log [[1, 1], [1, 1]] 10 [3, 7] [(0, true)]
      (by decide) 0
    have e : formula_term Real.log [[1, 1], [1, 1]] 10 [3, 7] 0 = Real.log (4 / 12) := by
      simp only [formula_term]
      norm_num
    have et : ([3, 7] : List Int).foldl int_add 0 = 10 := by decide
    rw [et]
    simpa [example_state_two_rows, e, log_density_function] using h
  · have h := foldlM_log_density_step Real.log [[1, 1], [1, 1]] 2 [2, 0] [(0, true)]
      (by decide) 0
    have e : formula_term Real.log [[1, 1], [1, 1]] 2 [2, 0] 0 = Real.log (3 / 4) := by
      simp only [formula_term]
      norm_num
    have et : ([2, 0] : List Int).foldl int_add 0 = 2 := by decide
    rw [et]
    simpa [example_state_two_rows, e, log_density_function] using h

theorem example_state_overflow_table :
    CountsType.table example_state_overflow.counts example_state_overflow.index.domain_name
      example_state_overflow.observation.domain_name = [[2147483647, 1]] := by
  decide

theorem overflow_total : ([2147483647, 1] : List Int).foldl int_add 0 = -2147483648 := by
  decide

theorem example_state_overflow_log_densities :
    log_densities_implementation Real.log example_state_overflow VariableRef.index =
      Outcome.returns [Real.log (2147483648 / -2147483646)] example_state_overflow := by
  rw [log_densities_returns_iff, example_state_overflow_table]
  refine List.Forall₂.cons ?_ List.Forall₂.nil
  have h := foldlM_log_density_step Real.log [[1, 1], [1, 1]] (-2147483648) [2147483647, 1]
    [(0, true)] (by decide) 0
  have e : formula_term Real.log [[1, 1], [1, 1]] (-2147483648) [2147483647, 1] 0 =
      Real.log (2147483648 / -2147483646) := by
    simp only [formula_term]
    norm_num
  rw [overflow_total]
  simpa [example_state_overflow, e, log_density_function] using h

theorem overflow_row_sum_entry :
    log_density_function Real.log [[1, 1], [1, 1]] ([2147483647, 1] : List Int).sum
      [2147483647, 1] [(0, true)] = some (Real.log (2147483648 / 2147483650)) := by
  have h := foldlM_log_density_step Real.log [[1, 1], [1, 1]] 2147483648 [2147483647, 1]
    [(0, true)] (by decide) 0
  have e : formula_term Real.log [[1, 1], [1, 1]] 2147483648 [2147483647, 1] 0 =
      Real.log (2147483648 / 2147483650) := by
    simp only [formula_term]
    norm_num
  have es : ([2147483647, 1] : List Int).sum = 2147483648 := by decide
  rw [es]
  simpa [e, log_density_function] using h

theorem overflow_entry_pos : 0 < Real.log (2147483648 / -2147483646) := by
  have hx : (2147483648 / -2147483646 : ℝ) = -(2147483648 / 2147483646) := by norm_num
  rw [hx, Real.log_neg_eq_log]
  exact Real.log_pos (by norm_num)

theorem row_sum_entry_neg : Real.log (2147483648 / 2147483650) < 0 :=
  Real.log_neg (by norm_num) (by norm_num)

theorem log_density_of_table_eq {σ τ K : Type} [CountsType σ] [CountsType τ] [Field K]
    (log : K → K) (s : State σ K) (c : τ)
    (h : CountsType.table c s.index.domain_name s.observation.domain_name =
      CountsType.table s.counts s.index.domain_name s.observation.domain_name) :
    (log_density_implementation log ({ s with counts := c } : State τ K)).result =
      (log_density_implementation log s).result := by
  simp only [log_density_implementation, log_densities_implementation, if_true, h]
  cases List.mapM
    (fun p : List Int × Int =>
      log_density_function log s.prior.value p.2 p.1 s.observation.value)
    (List.zip (CountsType.table s.counts s.index.domain_name s.observation.domain_name)
      ((CountsType.table s.counts s.index.domain_name s.observation.domain_name).map
        fun row => row.foldl int_add 0)) with
  | none => rfl
  | some lp =>
    show (match LogProbabilityVector.entry_at lp s.index.value with
      | some x => Outcome.returns x ({ s with counts := c } : State τ K)
      | none => Outcome.throws "std::out_of_range" { s with counts := c }).result =
      (match LogProbabilityVector.entry_at lp s.index.value with
      | some x => Outcome.returns x s
      | none => Outcome.throws "std::out_of_range" s).result
    cases LogProbabilityVector.entry_at lp s.index.value <;> rfl

theorem CountsStore.table_congr (c1 c2 : CountsStore) (a b : String)
    (hreg : c1.targets.find? (fun t => decide (t.1 = [a, b])) =
      c2.targets.find? (fun t => decide (t.1 = [a, b])))
    (hjoint : ∀ coords, c1.count [a, b] coords = c2.count [a, b] coords) :
    (CountsType.table c1 a b : List (List Int)) = CountsType.table c2 a b := by
  show CountsStore.table c1 a b = CountsStore.table c2 a b
  simp only [CountsStore.table, hreg, hjoint]

/-! ## Lemmas on the scored quotient -/

theorem Remap.subscript_fst (m : Remap) (k : Nat) : (m.subscript k).1 = (m k).join := by
  unfold Remap.subscript
  cases h : m k <;> rfl

theorem Remap.subscript_snd_join (m : Remap) (k k' : Nat) :
    ((m.subscript k).2 k').join = (m k').join := by
  unfold Remap.subscript
  cases h : m k with
  | some p => rfl
  | none =>
    show (if k' = k then some none else m k').join = _
    by_cases hk : k' = k
    · rw [if_pos hk, hk, h]
      rfl
    · rw [if_neg hk]

theorem Remap.subscript_snd_of_present (m : Remap) (k : Nat) (p : Option Nat)
    (h : m k = some p) : (m.subscript k).2 = m := by
  unfold Remap.subscript
  rw [h]

theorem clone_eq (is_a : Nat → VariableKind → Bool) (f : TruncatedBetaBernoulliFactor)
    (m : Remap) :
    clone is_a f m =
      match TruncatedBetaBernoulliFactor.construct
          (dynamic_cast is_a VariableKind.continuous_matrix (m f._prior).join)
          (dynamic_cast is_a VariableKind.categorical (m f._index).join)
          (dynamic_cast is_a VariableKind.mapped_categorical (m f._observation).join) with
      | some factor =>
          Outcome.returns factor
            (((m.subscript f._prior).2.subscript f._index).2.subscript f._observation).2
      | none => Outcome.undefined := by
  have h1 := Remap.subscript_fst m f._prior
  have h2 := Remap.subscript_fst (m.subscript f._prior).2 f._index
  have h3 := Remap.subscript_fst ((m.subscript f._prior).2.subscript f._index).2 f._observation
  rw [Remap.subscript_snd_join] at h2
  rw [Remap.subscript_snd_join, Remap.subscript_snd_join] at h3
  simp only [clone, h1, h2, h3]

/-! ## Lemmas on `compile_implementation` -/

theorem fill_resize {α : Type} (v : List α) (n : Nat) (d c : α) :
    fill (resize v n d) c = List.replicate n c := by
  have hlen : (resize v n d).length = n := by
    simp only [resize, List.length_append, List.length_take, List.length_replicate]
    omega
  rw [fill, List.map_const', hlen]

theorem refilled_prior {K : Type} [Field K] (prior : List (List K)) (D : Nat) (c : K) :
    resize_and_fill prior D c = [List.replicate D c, List.replicate D c] := by
  have h2 : ∃ r0 r1, resize prior 2 [] = [r0, r1] := by
    match prior with
    | [] => exact ⟨[], [], rfl⟩
    | [a] => exact ⟨a, [], rfl⟩
    | a :: b :: t => exact ⟨a, b, by simp [resize]⟩
  obtain ⟨r0, r1, h⟩ := h2
  simp [resize_and_fill, h, fill_resize]

/-- The result of `compile_implementation` when the observation domain size
differs from the number of rows of the prior and the prior has a first cell. -/
theorem compile_of_ne {σ K : Type} [CountsType σ] [Field K] (s : State σ K) (c : K)
    (hD : s.observation.domain_size ≠ s.prior.value.length)
    (hc : (subscript s.prior.value 0 >>= fun row => subscript row 0) = some c) :
    compile_implementation s = Outcome.returns ()
      { s with
        counts := CountsType.add_target
          (CountsType.add_target s.counts [s.index.domain_name, s.observation.domain_name]
            [s.index.domain_size, s.observation.domain_size])
          [s.index.domain_name] [s.index.domain_size],
        prior := ⟨[List.replicate s.observation.domain_size c,
          List.replicate s.observation.domain_size c]⟩ } := by
  simp only [compile_implementation, hD, ne_eq, not_false_eq_true, if_true, hc, refilled_prior]

/-- The result of `compile_implementation` when the observation domain size
equals the number of rows of the prior. -/
theorem compile_of_eq {σ K : Type} [CountsType σ] [Field K] (s : State σ K)
    (hD : s.observation.domain_size = s.prior.value.length) :
    compile_implementation s = Outcome.returns ()
      { s with
        counts := CountsType.add_target
          (CountsType.add_target s.counts [s.index.domain_name, s.observation.domain_name]
            [s.index.domain_size, s.observation.domain_size])
          [s.index.domain_name] [s.index.domain_size] } := by
  simp only [compile_implementation, hD, ne_eq, not_true_eq_false, if_false]

theorem add_target_of_mem (c : CountsStore) (names : List String) (shape : List Nat)
    (h : (names, shape) ∈ c.targets) : (CountsType.add_target c names shape) = c := by
  show CountsStore.add_target c names shape = c
  simp [CountsStore.add_target, h]

theorem mem_add_target_self (c : CountsStore) (names : List String) (shape : List Nat) :
    (names, shape) ∈ (CountsType.add_target c names shape).targets := by
  show (names, shape) ∈ (CountsStore.add_target c names shape).targets
  by_cases h : (names, shape) ∈ c.targets <;> simp [CountsStore.add_target, h]

theorem mem_add_target_of_mem (c : CountsStore) (names : List String) (shape : List Nat)
    (t : List String × List Nat) (ht : t ∈ c.targets) :
    t ∈ (CountsType.add_target c names shape).targets := by
  show t ∈ (CountsStore.add_target c names shape).targets
  by_cases h : (names, shape) ∈ c.targets <;> simp [CountsStore.add_target, h, ht]

theorem add_target_twice (c : CountsStore) (j m : List String) (js ms : List Nat) :
    CountsType.add_target
        (CountsType.add_target (CountsType.add_target (CountsType.add_target c j js) m ms) j js)
        m ms =
      CountsType.add_target (CountsType.add_target c j js) m ms := by
  rw [add_target_of_mem _ j js
    (mem_add_target_of_mem _ m ms _ (mem_add_target_self c j js))]
  exact add_target_of_mem _ m ms (mem_add_target_self _ m ms)

/-- A 2 × 1 prior with both cells c grows to 2 × D, every cell c, when the
observation domain size D is not 2 (the number of rows of the prior). -/
theorem compile_two_by_one_grows {σ K : Type} [CountsType σ] [Field K] (s : State σ K) (c : K)
    (hp : s.prior.value = [[c], [c]]) (hD : s.observation.domain_size ≠ 2) :
    ∃ s', compile_implementation s = Outcome.returns () s' ∧
      s'.prior.value = [List.replicate s.observation.domain_size c,
        List.replicate s.observation.domain_size c] := by
  refine ⟨_, compile_of_ne s c (by rw [hp]; exact hD) (by rw [hp]; rfl), rfl⟩

/-- After compile on a prior with 2 rows and a first cell, with an observation
domain size D other than 2, every access of `log_densities_implementation` is in
bounds, and the call returns, when the rows of the joint table have length D and
the observed ids lie in [0, D). -/
theorem log_densities_in_bounds_after_compile {σ : Type} [CountsType σ] (s : State σ ℝ)
    (r0 r1 : List ℝ) (hp : s.prior.value = [r0, r1]) (h0 : r0 ≠ [])
    (hD : s.observation.domain_size ≠ 2) :
    ∃ s', compile_implementation s = Outcome.returns () s' ∧
      ((∀ row ∈ CountsType.table s'.counts s'.index.domain_name s'.observation.domain_name,
          row.length = s.observation.domain_size) →
        (∀ e ∈ s.observation.value, 0 ≤ e.1 ∧ e.1 < s.observation.domain_size) →
        (∀ row ∈ CountsType.table s'.counts s'.index.domain_name s'.observation.domain_name,
          ∀ e ∈ s'.observation.value, InBounds s'.prior.value row e.1) ∧
        ∃ vec, log_densities_implementation Real.log s' VariableRef.index =
          Outcome.returns vec s') := by
  obtain ⟨c, t, hr0⟩ := List.exists_cons_of_ne_nil h0
  have hc : (subscript s.prior.value 0 >>= fun row => subscript row 0) = some c := by
    rw [hp, hr0]
    simp [subscript]
  refine ⟨_, compile_of_ne s c (by rw [hp]; exact hD) hc, fun hrows hobs => ?_⟩
  have hin : ∀ row ∈ CountsType.table
      (CountsType.add_target
        (CountsType.add_target s.counts [s.index.domain_name, s.observation.domain_name]
          [s.index.domain_size, s.observation.domain_size])
        [s.index.domain_name] [s.index.domain_size])
      s.index.domain_name s.observation.domain_name,
      ∀ e ∈ s.observation.value,
        InBounds [List.replicate s.observation.domain_size c,
          List.replicate s.observation.domain_size c] row e.1 := by
    intro row hrow e he
    have hlen := hrows row hrow
    obtain ⟨he0, he1⟩ := hobs e he
    have hlt : e.1.toNat < s.observation.domain_size := by omega
    refine ⟨he0, by rw [hlen]; exact hlt, ?_, ?_⟩ <;> simpa using hlt
  have hF : List.Forall₂
      (fun row x =>
        log_density_function Real.log
          [List.replicate s.observation.domain_size c,
            List.replicate s.observation.domain_size c]
          (row.foldl int_add 0) row s.observation.value = some x)
      (CountsType.table
        (CountsType.add_target
          (CountsType.add_target s.counts [s.index.domain_name, s.observation.domain_name]
            [s.index.domain_size, s.observation.domain_size])
          [s.index.domain_name] [s.index.domain_size])
        s.index.domain_name s.observation.domain_name)
      ((CountsType.table
        (CountsType.add_target
          (CountsType.add_target s.counts [s.index.domain_name, s.observation.domain_name]
            [s.index.domain_size, s.observation.domain_size])
          [s.index.domain_name] [s.index.domain_size])
        s.index.domain_name s.observation.domain_name).map
        fun row => (s.observation.value.map fun e =>
          formula_term Real.log [List.replicate s.observation.domain_size c,
            List.replicate s.observation.domain_size c] (row.foldl int_add 0) row e.1).sum) := by
    rw [List.forall₂_map_right_iff, List.forall₂_same]
    intro row hrow
    have h := foldlM_log_density_step Real.log
      [List.replicate s.observation.domain_size c, List.replicate s.observation.domain_size c]
      (row.foldl int_add 0) row s.observation.value (hin row hrow) 0
    rw [zero_add] at h
    exact h
  exact ⟨hin, _, (log_densities_returns_iff Real.log _ _).mpr hF⟩

/-! ## Results -/

/-- C1: for an observation map with the single entry (o, true) and o in bounds,
`log_density_function` returns log((counts[o] + prior[0][o]) / (N + prior[0][o] +
prior[1][o])) over the reals; with N = 10, counts[o] = 3 and both prior cells 1
the quotient handed to the logarithm is 4/12. -/
theorem log_density_function_single (priors : List (List ℝ)) (N : Int) (counts : List Int)
    (o : Nat) (c : Int) (p0 p1 : List ℝ) (a b : ℝ)
    (hc : counts[o]? = some c) (h0 : priors[0]? = some p0) (h1 : priors[1]? = some p1)
    (ha : p0[o]? = some a) (hb : p1[o]? = some b) :
    log_density_function Real.log priors N counts [((o : Int), true)] =
        some (Real.log (((c : ℝ) + a) / ((N : ℝ) + a + b))) ∧
      (N = 10 → c = 3 → a = 1 → b = 1 →
        density_ratio c N a b = (4 / 12 : ℝ) ∧
        log_density_function Real.log priors N counts [((o : Int), true)] =
          some (Real.log (4 / 12))) := by
  have key : log_density_function Real.log priors N counts [((o : Int), true)] =
      some (Real.log (density_ratio c N a b)) := by
    simp [log_density_function, log_density_step, subscript, hc, h0, h1, ha, hb]
  refine ⟨by rw [key]; rfl, ?_⟩
  intro hN hcv hav hbv
  have hr : density_ratio c N a b = (4 / 12 : ℝ) := by
    subst hN hcv hav hbv
    simp only [density_ratio]
    norm_num
  exact ⟨hr, by rw [key, hr]⟩

/-- C1, at prior [[1],[1]], N = 10, counts [3] and the observation {0: true}. -/
theorem log_density_function_single_witness :
    log_density_function Real.log [[1], [1]] 10 [3] [(((0 : Nat) : Int), true)] =
        some (Real.log ((((3 : Int) : ℝ) + 1) / (((10 : Int) : ℝ) + 1 + 1))) ∧
      density_ratio 3 10 (1 : ℝ) 1 = (4 / 12 : ℝ) ∧
      log_density_function Real.log [[1], [1]] 10 [3] [(((0 : Nat) : Int), true)] =
        some (Real.log (4 / 12)) :=
  have h := log_density_function_single [[1], [1]] 10 [3] 0 3 [1] [1] 1 1 rfl rfl rfl rfl rfl
  ⟨h.1, h.2 rfl rfl rfl rfl⟩

/-- C2, as stated, fails: an entry whose flag is false still contributes its
term. With the observation {0: false} the sum over the ids marked true is empty,
and the function returns log(4/12). -/
theorem log_density_function_counts_false_flag :
    log_density_function Real.log [[1], [1]] 10 [3] [(0, false)] ≠
      some ((([(0, false)] : List (Int × Bool)).filter fun e => e.2).map
        fun e => formula_term Real.log [[1], [1]] 10 [3] e.1).sum := by
  rw [log_density_function,
    foldlM_log_density_step Real.log [[1], [1]] 10 [3] [(0, false)] (by decide) 0]
  have hne := log_four_twelfths_ne_zero
  simpa [formula_term_example] using hne

/-- C2, amended: with in-bounds ids, `log_density_function` is the sum of
log((counts[o] + prior[0][o]) / (N + prior[0][o] + prior[1][o])) over every key o of
the observation map, whatever its flag (an id that is not a key contributes no
term); when every flag is true this is the sum over the ids marked true. -/
theorem log_density_function_sum_over_keys (priors : List (List ℝ)) (N : Int)
    (counts : List Int) (obs : List (Int × Bool))
    (h : ∀ e ∈ obs, InBounds priors counts e.1) :
    log_density_function Real.log priors N counts obs =
        some (obs.map fun e => formula_term Real.log priors N counts e.1).sum ∧
      ((∀ e ∈ obs, e.2 = true) →
        log_density_function Real.log priors N counts obs =
          some ((obs.filter fun e => e.2).map
            fun e => formula_term Real.log priors N counts e.1).sum) := by
  have key := foldlM_log_density_step Real.log priors N counts obs h 0
  rw [zero_add] at key
  refine ⟨key, fun hall => ?_⟩
  rw [List.filter_eq_self.mpr hall]
  exact key

/-- C2 amended, at the observation {0: true, 1: false} with two columns. -/
theorem log_density_function_sum_over_keys_witness :
    log_density_function Real.log [[1, 2], [1, 5]] 10 [3, 7] [(0, true), (1, false)] =
      some (([(0, true), (1, false)] : List (Int × Bool)).map
        fun e => formula_term Real.log [[1, 2], [1, 5]] 10 [3, 7] e.1).sum :=
  (log_density_function_sum_over_keys [[1, 2], [1, 5]] 10 [3, 7] [(0, true), (1, false)]
    (by decide)).1

/-- C3, as stated, fails: the total of a row is accumulated in `int`. With the
joint table [[2147483647, 1]] (one row, index_size 1) the total wraps to
-2147483648, and entry 0 of the returned vector is log(2147483648 / -2147483646),
which is not `log_density_function` on the sum 2147483648 of the row. -/
theorem log_densities_entry_overflow :
    CountsType.table example_state_overflow.counts example_state_overflow.index.domain_name
        example_state_overflow.observation.domain_name = [[2147483647, 1]] ∧
      ([[2147483647, 1]] : List (List Int)).length = example_state_overflow.index.domain_size ∧
      log_densities_implementation Real.log example_state_overflow VariableRef.index =
        Outcome.returns [Real.log (2147483648 / -2147483646)] example_state_overflow ∧
      log_density_function Real.log example_state_overflow.prior.value
          (([[2147483647, 1]] : List (List Int)).getD 0 []).sum
          (([[2147483647, 1]] : List (List Int)).getD 0 [])
          example_state_overflow.observation.value ≠
        ([Real.log (2147483648 / -2147483646)] : List ℝ)[0]? := by
  refine ⟨example_state_overflow_table, rfl, example_state_overflow_log_densities, ?_⟩
  have h := overflow_row_sum_entry
  have hp := overflow_entry_pos
  have hn := row_sum_entry_neg
  show log_density_function Real.log [[1, 1], [1, 1]] ([2147483647, 1] : List Int).sum
    [2147483647, 1] [(0, true)] ≠ some (Real.log (2147483648 / -2147483646))
  rw [h]
  intro heq
  have := Option.some.inj heq
  linarith

/-- C3, amended: when the store returns a joint table n with index_size rows and
no partial sum of a row of n leaves the range of `int`,
`log_densities_implementation` for the index variable returns exactly the vector
of length index_size whose entry v is `log_density_function` of the prior, the sum
of row n[v], the row n[v] and the current observation. -/
theorem log_densities_entries {σ : Type} [CountsType σ] (s : State σ ℝ)
    (n : List (List Int))
    (hn : CountsType.table s.counts s.index.domain_name s.observation.domain_name = n)
    (hlen : n.length = s.index.domain_size)
    (hrange : ∀ row ∈ n, sums_in_range 0 row) (vec : List ℝ) :
    log_densities_implementation Real.log s VariableRef.index = Outcome.returns vec s ↔
      vec.length = s.index.domain_size ∧
      ∀ v, v < s.index.domain_size →
        log_density_function Real.log s.prior.value (n.getD v []).sum (n.getD v [])
          s.observation.value = vec[v]? := by
  rw [log_densities_returns_iff, hn, List.forall₂_iff_get]
  have hrow : ∀ v (hv : v < n.length), (n.get ⟨v, hv⟩).foldl int_add 0 = (n.getD v []).sum ∧
      n.get ⟨v, hv⟩ = n.getD v [] := by
    intro v hv
    have e : n.get ⟨v, hv⟩ = n.getD v [] := by
      rw [List.getD_eq_getElem?_getD, List.getElem?_eq_getElem hv, Option.getD_some]
      rfl
    exact ⟨by rw [← e]; exact accumulate_eq_sum _ (hrange _ (List.get_mem n v hv)), e⟩
  constructor
  · intro ⟨h1, h2⟩
    refine ⟨by omega, fun v hv => ?_⟩
    have hv1 : v < n.length := by omega
    have hv2 : v < vec.length := by omega
    have := h2 v hv1 hv2
    rw [(hrow v hv1).1, (hrow v hv1).2] at this
    rw [this, List.getElem?_eq_getElem hv2]
    rfl
  · intro ⟨h1, h2⟩
    refine ⟨by omega, fun i h₁ h₂ => ?_⟩
    have := h2 i (by omega)
    rw [(hrow i h₁).1, (hrow i h₁).2, this, List.getElem?_eq_getElem h₂]
    rfl

/-- C3 amended, at `example_state_two_rows`: the joint table is [[3, 7], [2, 0]]
and the result is the two-entry vector [log(4/12), log(3/4)]. -/
theorem log_densities_entries_witness :
    log_densities_implementation Real.log example_state_two_rows VariableRef.index =
      Outcome.returns [Real.log (4 / 12), Real.log (3 / 4)] example_state_two_rows :=
  (log_densities_entries example_state_two_rows [[3, 7], [2, 0]] (by decide) rfl (by decide)
    [Real.log (4 / 12), Real.log (3 / 4)]).mpr
    ⟨rfl, fun v hv => by
      have hv2 : v < 2 := hv
      have h0 := foldlM_log_density_step Real.log [[1, 1], [1, 1]] 10 [3, 7] [(0, true)]
        (by decide) 0
      have e0 : formula_term Real.log [[1, 1], [1, 1]] 10 [3, 7] 0 = Real.log (4 / 12) := by
        simp only [formula_term]
        norm_num
      have h1 := foldlM_log_density_step Real.log [[1, 1], [1, 1]] 2 [2, 0] [(0, true)]
        (by decide) 0
      have e1 : formula_term Real.log [[1, 1], [1, 1]] 2 [2, 0] 0 = Real.log (3 / 4) := by
        simp only [formula_term]
        norm_num
      interval_cases v
      · simpa [example_state_two_rows, e0, log_density_function] using h0
      · simpa [example_state_two_rows, e1, log_density_function] using h1⟩

/-- C4, as stated, fails: a key whose flag is false receives the joint increment
too. With index value 0, the observation {0: false} and weight 1, the joint cell
(0, 0) goes from 3 to 4. -/
theorem adjust_counts_increments_false_flag :
    example_state_false_flag.observation.value = [(0, false)] ∧
      (adjust_counts_implementation example_state_false_flag 1).counts.count ["z", "w"] [0, 0] =
        example_state_false_flag.counts.count ["z", "w"] [0, 0] + 1 ∧
      (adjust_counts_implementation example_state_false_flag 1).counts.count ["z", "w"] [0, 0] ≠
        example_state_false_flag.counts.count ["z", "w"] [0, 0] := by
  decide

/-- C4, amended: with the index assigned to v (not -1), the store after
`adjust_counts_implementation` equals the store before except that the marginal
cell (v) is increased by the weight and the joint cell (v, o) is increased by the
weight for exactly the ids o that are keys of the observation map, whatever their
flag; the targets and the three variables are unchanged. -/
theorem adjust_counts_assigned {K : Type} (s : State CountsStore K) (weight : Int)
    (hv : s.index.value ≠ -1)
    (hmap : (s.observation.value.map Prod.fst).Pairwise (· < ·)) :
    (adjust_counts_implementation s weight).prior = s.prior ∧
      (adjust_counts_implementation s weight).index = s.index ∧
      (adjust_counts_implementation s weight).observation = s.observation ∧
      (adjust_counts_implementation s weight).counts.targets = s.counts.targets ∧
      ∀ names coords,
        (adjust_counts_implementation s weight).counts.count names coords =
          s.counts.count names coords +
            (if names = [s.index.domain_name] ∧ coords = [s.index.value] then weight else 0) +
            (if names = [s.index.domain_name, s.observation.domain_name] ∧
                coords ∈ s.observation.value.map (fun e => [s.index.value, e.1])
              then weight else 0) := by
  have hnd : (s.observation.value.map Prod.fst).Nodup :=
    hmap.imp (fun h => ne_of_lt h)
  simp only [adjust_counts_implementation, hv, ne_eq, not_false_eq_true, if_true, true_and]
  refine ⟨?_, fun names coords => ?_⟩
  · rw [foldl_increment_targets]
    rfl
  · rw [foldl_increment_count, countP_keys_of_nodup _ _ _ hnd]
    show (CountsStore.increment s.counts _ _ weight).count names coords + _ = _
    simp only [CountsStore.increment]
    by_cases h1 : names = [s.index.domain_name] ∧ coords = [s.index.value]
    · have h2 : names ≠ [s.index.domain_name, s.observation.domain_name] := by
        rw [h1.1]; simp
      simp [h1, h2]
    · by_cases h2 : names = [s.index.domain_name, s.observation.domain_name]
      · by_cases h3 : coords ∈ s.observation.value.map (fun e => [s.index.value, e.1])
        · simp [h1, h2, h3]
        · simp [h1, h2, h3]
      · simp [h1, h2]

/-- C4 amended, at `example_state_false_flag` and weight 1. -/
theorem adjust_counts_assigned_witness :
    (adjust_counts_implementation example_state_false_flag 1).counts.targets =
      example_state_false_flag.counts.targets ∧
    (adjust_counts_implementation example_state_false_flag 1).counts.count ["z"] [0] =
      example_state_false_flag.counts.count ["z"] [0] + 1 + 0 ∧
    (adjust_counts_implementation example_state_false_flag 1).counts.count ["z", "w"] [0, 0] =
      example_state_false_flag.counts.count ["z", "w"] [0, 0] + 0 + 1 :=
  have h := adjust_counts_assigned example_state_false_flag 1 (by decide) (by decide)
  ⟨h.2.2.2.1, h.2.2.2.2 ["z"] [0], h.2.2.2.2 ["z", "w"] [0, 0]⟩

/-- C5: `adjust_counts_implementation` with weight w followed by weight -w, on the
same index and observation values, gives back the state it started from: the
targets and every cell of the store (an absent cell counting as 0). -/
theorem adjust_counts_round_trip {K : Type} (s : State CountsStore K) (weight : Int) :
    adjust_counts_implementation (adjust_counts_implementation s weight) (-weight) = s := by
  by_cases hv : s.index.value = -1
  · simp [adjust_counts_implementation, hv]
  · simp only [adjust_counts_implementation, hv, ne_eq, not_false_eq_true, if_true]
    cases s with
    | mk counts prior index observation =>
      simp only [State.mk.injEq, and_true]
      apply CountsStore.eq_of_cells
      · simp only [foldl_increment_targets, increment_targets]
      · intro n x
        simp only [foldl_increment_count, increment_count]
        split_ifs <;> ring

/-- C6: when the index holds the sentinel -1, `adjust_counts_implementation`
returns the state unchanged, for every counts type: no call is made on the
counts object. -/
theorem adjust_counts_unassigned {σ K : Type} [CountsType σ] (s : State σ K) (weight : Int)
    (h : s.index.value = -1) : adjust_counts_implementation s weight = s := by
  simp [adjust_counts_implementation, h]

/-- C6, at `example_state_unassigned` and weight 5. -/
theorem adjust_counts_unassigned_witness :
    adjust_counts_implementation example_state_unassigned 5 = example_state_unassigned :=
  adjust_counts_unassigned example_state_unassigned 5 rfl

/-- C7: `log_densities_implementation` throws exactly when the variable is not
the index variable; it then throws the message "unimplemented: vector density for
TruncatedBetaBernoulli over observation", returns no vector and leaves the state
(store and variables) as it was. This is the case for the observation variable
and for the prior variable. -/
theorem log_densities_unimplemented {σ : Type} [CountsType σ] (s : State σ ℝ)
    (var : VariableRef) :
    ((∃ msg s', log_densities_implementation Real.log s var = Outcome.throws msg s') ↔
        var ≠ VariableRef.index) ∧
      (var ≠ VariableRef.index →
        log_densities_implementation Real.log s var =
            Outcome.throws
              "unimplemented: vector density for TruncatedBetaBernoulli over observation" s ∧
          ∀ vec s', log_densities_implementation Real.log s var ≠ Outcome.returns vec s') ∧
      log_densities_implementation Real.log s VariableRef.observation =
        Outcome.throws
          "unimplemented: vector density for TruncatedBetaBernoulli over observation" s ∧
      log_densities_implementation Real.log s VariableRef.prior =
        Outcome.throws
          "unimplemented: vector density for TruncatedBetaBernoulli over observation" s := by
  refine ⟨⟨?_, ?_⟩, ?_, ?_, ?_⟩
  · rintro ⟨msg, s', h⟩ hvar
    subst hvar
    simp only [log_densities_implementation, if_true] at h
    split at h <;> simp at h
  · intro hvar
    exact ⟨"unimplemented: vector density for TruncatedBetaBernoulli over observation", s,
      by simp [log_densities_implementation, hvar]⟩
  · intro hvar
    have e : log_densities_implementation Real.log s var =
        Outcome.throws
          "unimplemented: vector density for TruncatedBetaBernoulli over observation" s := by
      simp [log_densities_implementation, hvar]
    refine ⟨e, fun vec s' h => ?_⟩
    rw [e] at h
    exact Outcome.noConfusion h
  · simp [log_densities_implementation]
  · simp [log_densities_implementation]

/-- C7, at `example_state`: the observation variable throws, the index variable
does not. -/
theorem log_densities_unimplemented_witness :
    log_densities_implementation Real.log example_state VariableRef.observation =
        Outcome.throws
          "unimplemented: vector density for TruncatedBetaBernoulli over observation"
          example_state ∧
      ¬ ∃ msg s', log_densities_implementation Real.log example_state VariableRef.index =
        Outcome.throws msg s' :=
  have h := log_densities_unimplemented example_state
  ⟨((h VariableRef.observation).2.1 (by decide)).1,
    fun hex => ((h VariableRef.index).1.mp hex) rfl⟩

/-- C8, at the observation domain size 2: the guard of `compile_implementation`
compares the domain size with the number of rows of the prior, which is 2, so a
2 × 1 prior with both cells c is left as it is; it does not become 2 × 2. -/
theorem compile_two_by_one_domain_two (c : ℝ) (counts : CountsStore)
    (index : CategoricalVariable) (obs : List (Int × Bool)) (name : String) :
    ∃ s', compile_implementation
        (⟨counts, ⟨[[c], [c]]⟩, index, ⟨obs, name, 2⟩⟩ : State CountsStore ℝ) =
          Outcome.returns () s' ∧
      s'.prior.value = [[c], [c]] ∧
      s'.prior.value ≠ [List.replicate 2 c, List.replicate 2 c] := by
  refine ⟨_, compile_of_eq _ rfl, rfl, ?_⟩
  simp

/-- C9: for a prior with a first cell and an observation domain of size at least
1, `compile_implementation` returns, and running it again on the state it
returned returns that same state: the registered targets and the prior (so its
shape) after two runs are those after one run. -/
theorem compile_idempotent (s : State CountsStore ℝ) (c : ℝ)
    (hc : (subscript s.prior.value 0 >>= fun row => subscript row 0) = some c)
    (hD : 1 ≤ s.observation.domain_size) :
    ∃ s1, compile_implementation s = Outcome.returns () s1 ∧
      compile_implementation s1 = Outcome.returns () s1 := by
  by_cases hne : s.observation.domain_size = s.prior.value.length
  · refine ⟨_, compile_of_eq s hne, ?_⟩
    refine (compile_of_eq _ ?_).trans ?_
    · exact hne
    · simp only [add_target_twice]
  · refine ⟨_, compile_of_ne s c hne hc, ?_⟩
    by_cases h2 : s.observation.domain_size = 2
    · refine (compile_of_eq _ ?_).trans ?_
      · exact h2
      · simp only [add_target_twice]
    · have hc1 : (subscript [List.replicate s.observation.domain_size c,
          List.replicate s.observation.domain_size c] 0 >>= fun row => subscript row 0) =
          some c := by
        obtain ⟨k, hk⟩ : ∃ k, s.observation.domain_size = k + 1 := ⟨_, (Nat.sub_add_cancel hD).symm⟩
        rw [hk]
        simp [subscript, List.replicate_succ]
      refine (compile_of_ne _ c ?_ ?_).trans ?_
      · exact h2
      · exact hc1
      · simp only [add_target_twice, refilled_prior]

/-- C9, at `example_state_growth`: a 2 × 1 prior and an observation domain of
size 3. -/
theorem compile_idempotent_witness :
    ∃ s1, compile_implementation example_state_growth = Outcome.returns () s1 ∧
      compile_implementation s1 = Outcome.returns () s1 :=
  compile_idempotent example_state_growth 1 rfl (by decide)

/-- C10: whenever `compile_implementation` can read what it needs (the prior has
a first cell, or no resize is due), it returns and the calls it has made on the
counts object are exactly two, in this order: `add_target` of the joint target
(index domain name, observation domain name) with shape (index domain size,
observation domain size), then `add_target` of the marginal target (index domain
name) with shape (index domain size). No `increment` is made. -/
theorem compile_registers_two_targets (s : State CallLog ℝ)
    (h : (subscript s.prior.value 0 >>= fun row => subscript row 0).isSome ∨
      s.observation.domain_size = s.prior.value.length) :
    ∃ s', compile_implementation s = Outcome.returns () s' ∧
      s'.counts.calls = s.counts.calls ++
        [StoreCall.add_target [s.index.domain_name, s.observation.domain_name]
            [s.index.domain_size, s.observation.domain_size],
          StoreCall.add_target [s.index.domain_name] [s.index.domain_size]] := by
  by_cases hne : s.observation.domain_size = s.prior.value.length
  · refine ⟨_, compile_of_eq s hne, ?_⟩
    simp [CountsType.add_target]
  · have hsome := h.resolve_right hne
    obtain ⟨c, hc⟩ := Option.isSome_iff_exists.mp hsome
    refine ⟨_, compile_of_ne s c hne hc, ?_⟩
    simp [CountsType.add_target]

/-- C10, at `example_state_log`: from the empty log, the log after compile holds
the two registrations. -/
theorem compile_registers_two_targets_witness :
    ∃ s', compile_implementation example_state_log = Outcome.returns () s' ∧
      s'.counts.calls = [] ++
        [StoreCall.add_target ["z", "w"] [1, 3], StoreCall.add_target ["z"] [1]] :=
  compile_registers_two_targets example_state_log (Or.inl rfl)

/-- C11, as stated, fails: with a 2 × 3 prior and an observation domain of size
1, compile returns a prior whose row 0 has 1 column, fewer than the 3 before. -/
theorem compile_shrinks_columns :
    ∃ s', compile_implementation example_state_shrink = Outcome.returns () s' ∧
      (s'.prior.value.getD 0 []).length <
        (example_state_shrink.prior.value.getD 0 []).length := by
  refine ⟨_, compile_of_ne example_state_shrink 1 (by decide) rfl, ?_⟩
  simp [example_state_shrink]

/-- C11, amended: for a prior with 2 rows and a first cell, and an observation
domain size that is at least the length of each row, compile returns and neither
row of the prior is shorter after compile than before. -/
theorem compile_columns_not_shrinking {σ : Type} [CountsType σ] (s : State σ ℝ)
    (r0 r1 : List ℝ) (hp : s.prior.value = [r0, r1]) (h0 : r0 ≠ [])
    (hD0 : r0.length ≤ s.observation.domain_size)
    (hD1 : r1.length ≤ s.observation.domain_size) :
    ∃ s', compile_implementation s = Outcome.returns () s' ∧
      r0.length ≤ (s'.prior.value.getD 0 []).length ∧
      r1.length ≤ (s'.prior.value.getD 1 []).length := by
  by_cases hD : s.observation.domain_size = s.prior.value.length
  · refine ⟨_, compile_of_eq s hD, ?_⟩
    simp [hp]
  · obtain ⟨c, t, hr0⟩ := List.exists_cons_of_ne_nil h0
    have hc : (subscript s.prior.value 0 >>= fun row => subscript row 0) = some c := by
      rw [hp, hr0]
      simp [subscript]
    refine ⟨_, compile_of_ne s c hD hc, ?_⟩
    simp [hD0, hD1]

/-- C11 amended, at `example_state_growth`: a 2 × 1 prior and an observation
domain of size 3. -/
theorem compile_columns_not_shrinking_witness :
    ∃ s', compile_implementation example_state_growth = Outcome.returns () s' ∧
      ([1] : List ℝ).length ≤ (s'.prior.value.getD 0 []).length ∧
      ([1] : List ℝ).length ≤ (s'.prior.value.getD 1 []).length :=
  compile_columns_not_shrinking example_state_growth [1] [1] rfl (by simp)
    (by decide) (by decide)

/-- C13, as stated, fails: with an empty remap, `clone` returns no error; the
lookup inserts the absent key with a null pointer and the constructor
dereferences the null pointer, which is undefined behaviour. -/
theorem clone_absent_key_no_error :
    clone (fun _ _ => true) ⟨1, 2, 3⟩ (fun _ => none) = Outcome.undefined ∧
      (¬ ∃ msg m, clone (fun _ _ => true) ⟨1, 2, 3⟩ (fun _ => none) = Outcome.throws msg m) ∧
      (fun _ => none : Remap) 1 = none ∧
      (Remap.subscript (fun _ => none) 1).2 1 = some none := by
  have h : clone (fun _ _ => true) ⟨1, 2, 3⟩ (fun _ => none) = Outcome.undefined := by
    rw [clone_eq]
    rfl
  refine ⟨h, ?_, rfl, rfl⟩
  rintro ⟨msg, m, hm⟩
  rw [h] at hm
  exact Outcome.noConfusion hm

/-- C13, amended: when the prior, the index and the observation are all present
in the remap, mapped to non-null variables of the right class, `clone` returns a
factor bound to remap[prior], remap[index] and remap[obs] and leaves the remap
unchanged; in every other case (a key absent, mapped to null, or mapped to a
variable of the wrong class) the constructor is handed a null pointer and the
behaviour is undefined: no error is returned. -/
theorem clone_bound_or_undefined (is_a : Nat → VariableKind → Bool)
    (f : TruncatedBetaBernoulliFactor) (m : Remap) :
    (∀ p i o, m f._prior = some (some p) → m f._index = some (some i) →
        m f._observation = some (some o) →
        is_a p VariableKind.continuous_matrix = true →
        is_a i VariableKind.categorical = true →
        is_a o VariableKind.mapped_categorical = true →
        clone is_a f m = Outcome.returns ⟨p, i, o⟩ m) ∧
      ((¬ ∃ p i o, m f._prior = some (some p) ∧ m f._index = some (some i) ∧
          m f._observation = some (some o) ∧
          is_a p VariableKind.continuous_matrix = true ∧
          is_a i VariableKind.categorical = true ∧
          is_a o VariableKind.mapped_categorical = true) →
        clone is_a f m = Outcome.undefined) := by
  constructor
  · intro p i o hp hi ho kp ki ko
    rw [clone_eq, Remap.subscript_snd_of_present m _ _ hp,
      Remap.subscript_snd_of_present m _ _ hi, Remap.subscript_snd_of_present m _ _ ho,
      hp, hi, ho]
    simp [dynamic_cast, kp, ki, ko, TruncatedBetaBernoulliFactor.construct]
  · intro hno
    rw [clone_eq]
    rcases hp : m f._prior with _ | _ | p
    · simp [dynamic_cast, TruncatedBetaBernoulliFactor.construct]
    · simp [dynamic_cast, TruncatedBetaBernoulliFactor.construct]
    · rcases hi : m f._index with _ | _ | i
      · simp [dynamic_cast, TruncatedBetaBernoulliFactor.construct]
      · simp [dynamic_cast, TruncatedBetaBernoulliFactor.construct]
      · rcases ho : m f._observation with _ | _ | o
        · simp [dynamic_cast, TruncatedBetaBernoulliFactor.construct]
        · simp [dynamic_cast, TruncatedBetaBernoulliFactor.construct]
        · cases kp : is_a p VariableKind.continuous_matrix
          · simp [dynamic_cast, kp, TruncatedBetaBernoulliFactor.construct]
          · cases ki : is_a i VariableKind.categorical
            · simp [dynamic_cast, ki, TruncatedBetaBernoulliFactor.construct]
            · cases ko : is_a o VariableKind.mapped_categorical
              · simp [dynamic_cast, ko, TruncatedBetaBernoulliFactor.construct]
              · exact absurd ⟨p, i, o, hp, hi, ho, kp, ki, ko⟩ hno

/-- C13 amended, at a remap that sends the variables 1, 2, 3 to 11, 12, 13, of
the right classes. -/
theorem clone_bound_or_undefined_witness :
    clone (fun a k => decide (a = 11 ∧ k = VariableKind.continuous_matrix ∨
        a = 12 ∧ k = VariableKind.categorical ∨ a = 13 ∧ k = VariableKind.mapped_categorical))
      ⟨1, 2, 3⟩ (fun k => if 1 ≤ k ∧ k ≤ 3 then some (some (k + 10)) else none) =
    Outcome.returns ⟨11, 12, 13⟩
      (fun k => if 1 ≤ k ∧ k ≤ 3 then some (some (k + 10)) else none) :=
  (clone_bound_or_undefined _ ⟨1, 2, 3⟩ _).1 11 12 13 rfl rfl rfl rfl rfl rfl

/-- C14, at a 2 × 3 prior tuned per column and an observation domain of size 3:
the column count equals the domain size, yet the guard of
`compile_implementation` compares the domain size with the number of rows (2),
so the prior is refilled and every cell becomes the old cell (0, 0). -/
theorem compile_refills_matching_prior :
    example_state_tuned.prior.value = [[1, 2, 3], [4, 5, 6]] ∧
      example_state_tuned.observation.domain_size = 3 ∧
      ∃ s', compile_implementation example_state_tuned = Outcome.returns () s' ∧
        s'.prior.value = [[1, 1, 1], [1, 1, 1]] ∧
        s'.prior.value ≠ example_state_tuned.prior.value := by
  refine ⟨rfl, rfl, _, compile_of_ne example_state_tuned 1 (by decide) ?_, rfl, ?_⟩
  · simp [example_state_tuned, subscript]
  · simp [example_state_tuned]

/-- C17, at a 2 × 1 prior, an observation domain of size 2 and the observation
{1: true}: compile leaves the prior 2 × 1 and registers the joint target of shape
1 × 2; `log_densities_implementation` then reads row 0 of the prior at
subscript 1, outside the row, which is undefined behaviour. -/
theorem compile_then_log_densities_out_of_bounds :
    ∃ s', compile_implementation example_state_two_columns = Outcome.returns () s' ∧
      s'.prior.value = [[1], [1]] ∧
      CountsType.table s'.counts "z" "w" = [[0, 0]] ∧
      subscript ([1] : List ℝ) 1 = none ∧
      log_densities_implementation Real.log s' VariableRef.index = Outcome.undefined := by
  refine ⟨_, compile_of_eq example_state_two_columns rfl, rfl, by decide, rfl, ?_⟩
  have ht : CountsType.table
      (CountsType.add_target
        (CountsType.add_target example_state_two_columns.counts ["z", "w"]
          [example_state_two_columns.index.domain_size,
            example_state_two_columns.observation.domain_size])
        ["z"] [example_state_two_columns.index.domain_size])
      "z" "w" = [[0, 0]] := by decide
  simp only [log_densities_implementation, if_true]
  rw [show example_state_two_columns.index.domain_name = "z" from rfl,
    show example_state_two_columns.observation.domain_name = "w" from rfl, ht]
  simp [example_state_two_columns, log_density_function, log_density_step, subscript]
  rfl

/-- C15, as stated, fails in two ways. With a joint table of one row, an index
domain of size 2 and the index at 1, `log_densities_implementation` returns a
one-entry vector and `log_density_implementation` throws: there is no entry 1.
With the joint table [[2147483647, 1]] and the index at 0, it returns
log(2147483648 / -2147483646), the row total having wrapped in `int`, which is not
the formula on the sum 2147483648 of the row. -/
theorem log_density_not_entry :
    (0 ≤ example_state_short_table.index.value ∧
      example_state_short_table.index.value <
        (example_state_short_table.index.domain_size : Int) ∧
      log_densities_implementation Real.log example_state_short_table VariableRef.index =
        Outcome.returns [Real.log (4 / 12)] example_state_short_table ∧
      log_density_implementation Real.log example_state_short_table =
        Outcome.throws "std::out_of_range" example_state_short_table) ∧
    (0 ≤ example_state_overflow.index.value ∧
      example_state_overflow.index.value < (example_state_overflow.index.domain_size : Int) ∧
      log_density_implementation Real.log example_state_overflow =
        Outcome.returns (Real.log (2147483648 / -2147483646)) example_state_overflow ∧
      log_density_function Real.log example_state_overflow.prior.value
          ((CountsType.table example_state_overflow.counts
            example_state_overflow.index.domain_name
            example_state_overflow.observation.domain_name).getD 0 []).sum
          ((CountsType.table example_state_overflow.counts
            example_state_overflow.index.domain_name
            example_state_overflow.observation.domain_name).getD 0 [])
          example_state_overflow.observation.value ≠
        some (Real.log (2147483648 / -2147483646))) := by
  have hshort : log_densities_implementation Real.log example_state_short_table
      VariableRef.index = Outcome.returns [Real.log (4 / 12)] example_state_short_table := by
    rw [log_densities_returns_iff]
    have ht : CountsType.table example_state_short_table.counts
        example_state_short_table.index.domain_name
        example_state_short_table.observation.domain_name = [[3, 7]] := by decide
    rw [ht]
    refine List.Forall₂.cons ?_ List.Forall₂.nil
    have h := foldlM_log_density_step Real.log [[1, 1], [1, 1]] 10 [3, 7] [(0, true)]
      (by decide) 0
    have e : formula_term Real.log [[1, 1], [1, 1]] 10 [3, 7] 0 = Real.log (4 / 12) := by
      simp only [formula_term]
      norm_num
    have et : ([3, 7] : List Int).foldl int_add 0 = 10 := by decide
    rw [et]
    simpa [example_state_short_table, example_state, e, log_density_function] using h
  refine ⟨⟨by decide, by decide, hshort, ?_⟩, by decide, by decide, ?_, ?_⟩
  · simp only [log_density_implementation, hshort]
    rfl
  · simp only [log_density_implementation, example_state_overflow_log_densities]
    rfl
  · rw [example_state_overflow_table]
    have h := overflow_row_sum_entry
    have hp := overflow_entry_pos
    have hn := row_sum_entry_neg
    show log_density_function Real.log [[1, 1], [1, 1]] ([2147483647, 1] : List Int).sum
      [2147483647, 1] [(0, true)] ≠ some (Real.log (2147483648 / -2147483646))
    rw [h]
    intro heq
    have := Option.some.inj heq
    linarith

/-- C15, amended: with the index assigned to v, 0 <= v < index_size, and a joint
table of index_size rows, whenever `log_densities_implementation` for the index
returns a vector, `log_density_implementation` returns the entry v of that
vector, in the state it was called in; the entry is `log_density_function` on row
v of the joint table and the `int` total accumulated over that row, which is the
sum of the row when no partial sum leaves the range of `int`. When the former
call is undefined so is the latter, and there is no third case. -/
theorem log_density_is_entry {σ : Type} [CountsType σ] (s : State σ ℝ)
    (h0 : 0 ≤ s.index.value) (hlt : s.index.value < s.index.domain_size)
    (hlen : (CountsType.table s.counts s.index.domain_name
      s.observation.domain_name).length = s.index.domain_size) :
    (∀ vec, log_densities_implementation Real.log s VariableRef.index =
        Outcome.returns vec s →
        ∃ x, vec[s.index.value.toNat]? = some x ∧
          log_density_implementation Real.log s = Outcome.returns x s ∧
          log_density_function Real.log s.prior.value
            (((CountsType.table s.counts s.index.domain_name
              s.observation.domain_name).getD s.index.value.toNat []).foldl int_add 0)
            ((CountsType.table s.counts s.index.domain_name
              s.observation.domain_name).getD s.index.value.toNat [])
            s.observation.value = some x ∧
          (sums_in_range 0 ((CountsType.table s.counts s.index.domain_name
              s.observation.domain_name).getD s.index.value.toNat []) →
            log_density_function Real.log s.prior.value
              ((CountsType.table s.counts s.index.domain_name
                s.observation.domain_name).getD s.index.value.toNat []).sum
              ((CountsType.table s.counts s.index.domain_name
                s.observation.domain_name).getD s.index.value.toNat [])
              s.observation.value = some x)) ∧
      (log_densities_implementation Real.log s VariableRef.index = Outcome.undefined →
        log_density_implementation Real.log s = Outcome.undefined) ∧
      ((∃ vec, log_densities_implementation Real.log s VariableRef.index =
          Outcome.returns vec s) ∨
        log_densities_implementation Real.log s VariableRef.index = Outcome.undefined) := by
  refine ⟨fun vec hvec => ?_, fun hund => ?_, log_densities_returns_or_undefined Real.log s⟩
  · have hF := (log_densities_returns_iff Real.log s vec).mp hvec
    rw [List.forall₂_iff_get] at hF
    obtain ⟨hl, hget⟩ := hF
    have hv1 : s.index.value.toNat <
        (CountsType.table s.counts s.index.domain_name s.observation.domain_name).length := by
      omega
    have hv2 : s.index.value.toNat < vec.length := by omega
    have hrow : (CountsType.table s.counts s.index.domain_name
        s.observation.domain_name).getD s.index.value.toNat [] =
        (CountsType.table s.counts s.index.domain_name s.observation.domain_name).get
          ⟨s.index.value.toNat, hv1⟩ := by
      rw [List.getD_eq_getElem?_getD, List.getElem?_eq_getElem hv1, Option.getD_some]
      rfl
    have hx := hget _ hv1 hv2
    rw [← hrow] at hx
    refine ⟨vec[s.index.value.toNat], List.getElem?_eq_getElem hv2, ?_, hx, fun hr => ?_⟩
    · simp only [log_density_implementation, hvec, LogProbabilityVector.entry_at, h0, if_true,
        List.getElem?_eq_getElem hv2]
    · rw [← accumulate_eq_sum _ hr]
      exact hx
  · simp only [log_density_implementation, hund]

/-- C15 amended, at `example_state_two_rows`: the index holds 1 and the call
returns log(3/4), the entry 1 of the vector [log(4/12), log(3/4)]. -/
theorem log_density_is_entry_witness :
    ∃ x, ([Real.log (4 / 12), Real.log (3 / 4)] : List ℝ)[
        example_state_two_rows.index.value.toNat]? = some x ∧
      log_density_implementation Real.log example_state_two_rows =
        Outcome.returns x example_state_two_rows ∧
      log_density_function Real.log example_state_two_rows.prior.value
        ((CountsType.table example_state_two_rows.counts
          example_state_two_rows.index.domain_name
          example_state_two_rows.observation.domain_name).getD
            example_state_two_rows.index.value.toNat []).sum
        ((CountsType.table example_state_two_rows.counts
          example_state_two_rows.index.domain_name
          example_state_two_rows.observation.domain_name).getD
            example_state_two_rows.index.value.toNat [])
        example_state_two_rows.observation.value = some x :=
  have h := (log_density_is_entry example_state_two_rows (by decide) (by decide)
    (by decide)).1 [Real.log (4 / 12), Real.log (3 / 4)] example_state_two_rows_log_densities
  h.elim fun x hx => ⟨x, hx.1, hx.2.1, hx.2.2.2 (by decide)⟩

/-- C16: with the index assigned to v, `adjust_counts_implementation` changes
the marginal target only at cell (v), by the weight, and the joint target only
at the cells (v, o) with o a key of the observation map, each by the weight;
every other cell of both targets, every other target, the registered targets and
the prior, index and observation are unchanged. The calls made on the counts
object are one increment of the marginal cell, then one increment per key, in key
order. -/
theorem adjust_counts_frame {K : Type} (s : State CountsStore K) (l : State CallLog K)
    (weight : Int) (hv : s.index.value ≠ -1)
    (hmap : (s.observation.value.map Prod.fst).Pairwise (· < ·)) :
    (adjust_counts_implementation s weight).counts.count [s.index.domain_name]
        [s.index.value] =
        s.counts.count [s.index.domain_name] [s.index.value] + weight ∧
      (∀ coords, coords ≠ [s.index.value] →
        (adjust_counts_implementation s weight).counts.count [s.index.domain_name] coords =
          s.counts.count [s.index.domain_name] coords) ∧
      (∀ e ∈ s.observation.value,
        (adjust_counts_implementation s weight).counts.count
            [s.index.domain_name, s.observation.domain_name] [s.index.value, e.1] =
          s.counts.count [s.index.domain_name, s.observation.domain_name]
            [s.index.value, e.1] + weight) ∧
      (∀ coords, (∀ e ∈ s.observation.value, coords ≠ [s.index.value, e.1]) →
        (adjust_counts_implementation s weight).counts.count
            [s.index.domain_name, s.observation.domain_name] coords =
          s.counts.count [s.index.domain_name, s.observation.domain_name] coords) ∧
      (∀ names coords, names ≠ [s.index.domain_name] →
        names ≠ [s.index.domain_name, s.observation.domain_name] →
        (adjust_counts_implementation s weight).counts.count names coords =
          s.counts.count names coords) ∧
      (adjust_counts_implementation s weight).counts.targets = s.counts.targets ∧
      (adjust_counts_implementation s weight).prior = s.prior ∧
      (adjust_counts_implementation s weight).index = s.index ∧
      (adjust_counts_implementation s weight).observation = s.observation ∧
      (l.index.value ≠ -1 →
        (adjust_counts_implementation l weight).counts.calls =
          l.counts.calls ++
            StoreCall.increment [l.index.domain_name] [l.index.value] weight ::
              l.observation.value.map fun e =>
                StoreCall.increment [l.index.domain_name, l.observation.domain_name]
                  [l.index.value, e.1] weight) := by
  have hnd : (s.observation.value.map Prod.fst).Nodup := hmap.imp (fun h => ne_of_lt h)
  have hcell := adjust_counts_cells s weight hv hnd
  have hvars := adjust_counts_variables s weight
  have hne : [s.index.domain_name] ≠ [s.index.domain_name, s.observation.domain_name] := by
    simp
  refine ⟨?_, ?_, ?_, ?_, ?_, adjust_counts_targets s weight, hvars.1, hvars.2.1, hvars.2.2, ?_⟩
  · rw [hcell]
    simp
  · intro coords hc
    rw [hcell]
    simp [hc]
  · intro e he
    rw [hcell]
    have hmem : [s.index.value, e.1] ∈
        s.observation.value.map (fun e => [s.index.value, e.1]) :=
      List.mem_map_of_mem _ he
    simp only [hmem, and_true, if_true]
    simp
  · intro coords hc
    rw [hcell]
    have hmem : coords ∉ s.observation.value.map (fun e => [s.index.value, e.1]) := by
      intro hm
      obtain ⟨e, he, hce⟩ := List.mem_map.mp hm
      exact hc e he hce.symm
    simp [hmem]
  · intro names coords h1 h2
    rw [hcell]
    simp [h1, h2]
  · intro hl
    simp only [adjust_counts_implementation, hl, ne_eq, not_false_eq_true, if_true,
      foldl_increment_calls]
    show (l.counts.calls ++ [_]) ++ _ = _
    simp

/-- C16, at `example_state` and weight 1: the marginal cell (0) and the joint
cell (0, 0) each gain 1 and the joint cell (0, 1) is unchanged. -/
theorem adjust_counts_frame_witness :
    (adjust_counts_implementation example_state 1).counts.count ["z"] [0] =
        example_state.counts.count ["z"] [0] + 1 ∧
      (adjust_counts_implementation example_state 1).counts.count ["z", "w"] [0, 1] =
        example_state.counts.count ["z", "w"] [0, 1] ∧
      (adjust_counts_implementation example_state_log 1).counts.calls =
        [] ++ StoreCall.increment ["z"] [0] 1 ::
          [(0, true)].map fun e => StoreCall.increment ["z", "w"] [0, e.1] 1 :=
  have h := adjust_counts_frame example_state example_state_log 1 (by decide) (by decide)
  ⟨h.1, h.2.2.2.1 [0, 1] (by decide), h.2.2.2.2.2.2.2.2.2 (by decide)⟩

/-- C19: for two stores that agree on the joint target (index domain, observation
domain), its registration and each of its cells, whatever they hold in the
marginal target and elsewhere, and the same prior, index and observation,
`log_densities_implementation` for the index and `log_density_implementation`
give the same result on both. -/
theorem scores_independent_of_marginal (s : State CountsStore ℝ) (c : CountsStore)
    (hreg : c.targets.find?
        (fun t => decide (t.1 = [s.index.domain_name, s.observation.domain_name])) =
      s.counts.targets.find?
        (fun t => decide (t.1 = [s.index.domain_name, s.observation.domain_name])))
    (hjoint : ∀ coords,
      c.count [s.index.domain_name, s.observation.domain_name] coords =
        s.counts.count [s.index.domain_name, s.observation.domain_name] coords) :
    (log_densities_implementation Real.log { s with counts := c } VariableRef.index).result =
        (log_densities_implementation Real.log s VariableRef.index).result ∧
      (log_density_implementation Real.log { s with counts := c }).result =
        (log_density_implementation Real.log s).result := by
  have ht := CountsStore.table_congr c s.counts s.index.domain_name s.observation.domain_name
    hreg hjoint
  exact ⟨log_densities_of_table_eq Real.log s c ht, log_density_of_table_eq Real.log s c ht⟩

/-- C19, at `example_state` and the store `example_store_other_marginal`, whose
marginal cells are all 99: the results are those on `example_store`. -/
theorem scores_independent_of_marginal_witness :
    example_store_other_marginal.count ["z"] [0] ≠ example_state.counts.count ["z"] [0] ∧
      (log_densities_implementation Real.log
          { example_state with counts := example_store_other_marginal }
          VariableRef.index).result =
        (log_densities_implementation Real.log example_state VariableRef.index).result ∧
      (log_density_implementation Real.log
          { example_state with counts := example_store_other_marginal }).result =
        (log_density_implementation Real.log example_state).result :=
  ⟨by decide,
    scores_independent_of_marginal example_state example_store_other_marginal (by decide)
      (fun coords => by simp [example_store_other_marginal, example_state])⟩

end Graphmod
